import Mathlib

/-!
Verification development for the turbo-tosec DAT importer.

The definitions below are a shallow embedding of the Python sources:
  * `src/turbo_tosec/tosec_importer.py` (parsers, `flush_buffer`, and the
    serial loop of `main`),
  * `src/turbo_tosec/session.py` (`ImportSession` orchestrator).
Python tuples of records become the `Record` structure; Python values that may
be `None` are modelled by `PyVal`; fallible code returns `Except`; file reads
and database writes are passed in as explicit inputs/oracles.
-/

namespace TurboTosec

/-- A Python value stored in a record tuple: a string, an int, or `None`. -/
inductive PyVal where
  | str : String → PyVal
  | int : Int → PyVal
  | none : PyVal
deriving DecidableEq, Repr

/-- One row destined for the `roms` table, in the order of the DB schema:
`(dat_filename, platform, game_name, description, rom_name, size, crc, md5,
sha1, status, system)`. -/
structure Record where
  dat_filename : String
  platform : String
  game_name : PyVal
  description : PyVal
  rom_name : PyVal
  size : PyVal
  crc : PyVal
  md5 : PyVal
  sha1 : PyVal
  status : PyVal
  system : String
deriving DecidableEq, Repr

/-- `rom.get(attr)`: an attribute that may be absent becomes `None`. -/
def optVal : Option String → PyVal
  | some s => PyVal.str s
  | Option.none => PyVal.none

/-- Does `pat` occur at the very start of `cs`? (plain, case-sensitive). -/
def leadMatch : List Char → List Char → Bool
  | [], _ => true
  | _ :: _, [] => false
  | a :: as, b :: bs => a = b && leadMatch as bs

/-- `os.path.basename`: the part of the path after the last `/`. -/
def pyBasename (s : String) : String :=
  String.mk ((s.data.reverse.takeWhile (fun c => c ≠ '/')).reverse)

/-- `os.path.dirname` (posix): everything before the last `/`, with trailing
slashes stripped unless the head is all slashes. -/
def pyDirname (s : String) : String :=
  let headRev := s.data.reverse.dropWhile (fun c => c ≠ '/')
  let head := headRev.reverse
  if head.isEmpty || head.all (fun c => c = '/') then String.mk head
  else String.mk ((head.reverse.dropWhile (fun c => c = '/')).reverse)

/-- The literal separator `" - "` used by `dat_filename.split(' - ')[0]`. -/
def sepChars : List Char := [' ', '-', ' ']

/-- The segment of `cs` before the first occurrence of `sep`
(the whole of `cs` when `sep` does not occur): `s.split(sep)[0]`. -/
def firstSeg (sep : List Char) : List Char → List Char
  | [] => []
  | c :: cs => if leadMatch sep (c :: cs) then [] else c :: firstSeg sep cs

/-- `dat_filename.split(' - ')[0]`: the collection ("platform") name. -/
def pyPlatform (s : String) : String := String.mk (firstSeg sepChars s.data)

/-- A `<rom .../>` element: its five hash/size attributes plus the
optional `status` attribute, each possibly absent. -/
structure XmlRom where
  name : Option String
  size : Option String
  crc : Option String
  md5 : Option String
  sha1 : Option String
  status : Option String
deriving DecidableEq, Repr

/-- A `<game>` element: its `name` attribute, its optional `<description>`
child (outer `Option` = element present, inner = its text, which Python's
ElementTree reports as `None` for an empty element), and its `<rom>` children. -/
structure XmlGame where
  name : Option String
  descNode : Option (Option String)
  roms : List XmlRom
deriving DecidableEq, Repr

/-- The records of one `<game>` element of `parse_xml_dat_file`: one per
`<rom>` child.  `dat_filename = os.path.basename(file_path)`,
`system_name = os.path.basename(os.path.dirname(file_path))`,
`platform = dat_filename.split(' - ')[0]`,
`description = desc_node.text if desc_node is not None else ""`,
rom attributes via `rom.get(...)` with a default only for `status`. -/
def xmlGameRecords (path : String) (g : XmlGame) : List Record :=
  let dat_filename := pyBasename path
  let system_name := pyBasename (pyDirname path)
  let platform := pyPlatform dat_filename
  let game_name := optVal g.name
  let description := match g.descNode with
    | Option.none => PyVal.str ""
    | some t => optVal t
  g.roms.map (fun rom =>
    { dat_filename := dat_filename, platform := platform,
      game_name := game_name, description := description,
      rom_name := optVal rom.name, size := optVal rom.size,
      crc := optVal rom.crc, md5 := optVal rom.md5, sha1 := optVal rom.sha1,
      status := PyVal.str (rom.status.getD "good"),
      system := system_name })

/-- `parse_xml_dat_file`: the records of every `<game>` child of the root,
in document order. -/
def parse_xml_dat_file (path : String) (games : List XmlGame) : List Record :=
  (games.map (xmlGameRecords path)).flatten

/-! ### The legacy (CMP) parser: `parse_cmp_dat_file` -/

/-- Python's `\s` character class (ASCII part): space, tab, newline,
carriage return, vertical tab, form feed. -/
def isPySpace (c : Char) : Bool :=
  c = ' ' || c = '\t' || c = '\n' || c = '\r' || c = '\x0b' || c = '\x0c'

/-- Case-insensitive match of a (lowercase) literal keyword at the start of
`cs`, as done by `re.IGNORECASE` on a literal. -/
def ciMatch : List Char → List Char → Bool
  | [], _ => true
  | _ :: _, [] => false
  | k :: ks, c :: cs => c.toLower = k && ciMatch ks cs

/-- Number of leading `\s` characters. -/
def countSpaces : List Char → Nat
  | [] => 0
  | c :: cs => if isPySpace c then countSpaces cs + 1 else 0

/-- Match the regex `kw\s*\(` at the start of `cs` (case-insensitive);
returns the length of the match (`match.end() - match.start()`). -/
def matchKwParen (kw : List Char) (cs : List Char) : Option Nat :=
  if ciMatch kw cs then
    match (cs.drop kw.length).drop (countSpaces (cs.drop kw.length)) with
    | '(' :: _ => some (kw.length + countSpaces (cs.drop kw.length) + 1)
    | _ => Option.none
  else Option.none

/-- The keyword of the anchor regex `game\s*\(`. -/
def gameKw : List Char := ['g', 'a', 'm', 'e']

/-- Recursion worker for `findAnchors`; `fuel` is an upper bound kept at or
above the length of the remaining input (each step consumes at least one
character, so the scan below never runs out of fuel). -/
def findAnchorsAux (kw : List Char) : Nat → List Char → Nat → List Nat
  | 0, _, _ => []
  | _, [], _ => []
  | fuel + 1, c :: cs, i =>
    match matchKwParen kw (c :: cs) with
    | some n => (i + n) :: findAnchorsAux kw fuel ((c :: cs).drop n) (i + n)
    | Option.none => findAnchorsAux kw fuel cs (i + 1)

/-- `re.finditer(r'game\s*\(', content, re.IGNORECASE)`: the values of
`match.end()` for the non-overlapping, leftmost-first matches.  `i` is the
absolute index of the head of the list inside the whole content. -/
def findAnchors (kw : List Char) (cs : List Char) (i : Nat) : List Nat :=
  findAnchorsAux kw cs.length cs i

/-- The depth-balanced scan of `parse_cmp_dat_file`: starting with open-paren
balance `b`, walk forward one character at a time (`(` increments, `)`
decrements) until the balance first returns to 0.  Returns the number of
characters consumed (`current_idx - start_idx`), or `none` if the end of the
input is reached while the balance is still positive. -/
def scanDepth : List Char → Nat → Option Nat
  | _, 0 => some 0
  | [], _ + 1 => Option.none
  | c :: cs, b + 1 =>
    let b2 := if c = '(' then b + 2 else if c = ')' then b else b + 1
    (scanDepth cs b2).map (· + 1)

/-- The game blocks of a legacy file: for each anchor, if the balanced scan
terminates after `n` characters, the block is `content[start : start+n-1]`
(the closing parenthesis excluded); an anchor whose scan reaches end-of-file
is discarded. -/
def extract_game_blocks (content : List Char) : List (List Char) :=
  (findAnchors gameKw content 0).filterMap (fun s =>
    (scanDepth (content.drop s) 1).map (fun n => (content.drop s).take (n - 1)))

/-- Number of opening parentheses in `cs` (used to state what the balanced
scan computes). -/
def opensIn (cs : List Char) : Nat := cs.countP (fun c => decide (c = '('))

/-- Number of closing parentheses in `cs`. -/
def closesIn (cs : List Char) : Nat := cs.countP (fun c => decide (c = ')'))

/-- Match the regex `kw\s+"(.*?)"` (no DOTALL) at the start of `cs`:
the keyword case-insensitively, at least one whitespace, an opening quote,
then a lazy capture up to the next quote on the same line. -/
def matchQuotedAt (kw : List Char) (cs : List Char) : Option (List Char) :=
  if ciMatch kw cs then
    let rest := cs.drop kw.length
    let n := countSpaces rest
    if n = 0 then Option.none else
    match rest.drop n with
    | '"' :: rest2 =>
      let cap := rest2.takeWhile (fun c => c ≠ '"' && c ≠ '\n')
      match rest2.drop cap.length with
      | '"' :: _ => some cap
      | _ => Option.none
    | _ => Option.none
  else Option.none

/-- `pattern.search`: the leftmost match of `kw\s+"(.*?)"` in `cs`. -/
def searchQuoted (kw : List Char) : List Char → Option (List Char)
  | [] => Option.none
  | c :: cs =>
    match matchQuotedAt kw (c :: cs) with
    | some cap => some cap
    | Option.none => searchQuoted kw cs

/-- Match the regex `kw\s+(cls+)` at the start of `cs`, where `cls` is a
character class (`\d` or `[0-9a-fA-F]`): keyword, at least one whitespace,
then a greedy non-empty run of class characters. -/
def matchTokenAt (kw : List Char) (p : Char → Bool) (cs : List Char) :
    Option (List Char) :=
  if ciMatch kw cs then
    let rest := cs.drop kw.length
    let n := countSpaces rest
    if n = 0 then Option.none else
    let cap := (rest.drop n).takeWhile p
    if cap.isEmpty then Option.none else some cap
  else Option.none

/-- `pattern.search`: the leftmost match of `kw\s+(cls+)` in `cs`. -/
def searchToken (kw : List Char) (p : Char → Bool) : List Char → Option (List Char)
  | [] => Option.none
  | c :: cs =>
    match matchTokenAt kw p (c :: cs) with
    | some cap => some cap
    | Option.none => searchToken kw p cs

/-- Trim `\s` from both ends (the effect of `\s*(.*?)\s*` around the capture). -/
def pyStrip (cs : List Char) : List Char :=
  ((cs.dropWhile isPySpace).reverse.dropWhile isPySpace).reverse

/-- The keyword of the rom sub-block regex `rom\s*\(\s*(.*?)\s*\)`. -/
def romKw : List Char := ['r', 'o', 'm']

/-- Recursion worker for `findRomBlocks`; `fuel` stays at or above the
length of the remaining input. -/
def findRomBlocksAux : Nat → List Char → List (List Char)
  | 0, _ => []
  | _, [] => []
  | fuel + 1, c :: cs =>
    match matchKwParen romKw (c :: cs) with
    | some n =>
      let after := (c :: cs).drop n
      let inner := after.takeWhile (fun ch => ch ≠ ')')
      match after.drop inner.length with
      | ')' :: _ =>
          pyStrip inner :: findRomBlocksAux fuel (after.drop (inner.length + 1))
      | _ => findRomBlocksAux fuel cs
    | Option.none => findRomBlocksAux fuel cs

/-- `rom_pattern.finditer(game_block)` for `rom\s*\(\s*(.*?)\s*\)` with
DOTALL: each match captures the text between the opening parenthesis and the
first closing parenthesis, trimmed of surrounding whitespace; scanning
continues after the closing parenthesis (non-overlapping). -/
def findRomBlocks (cs : List Char) : List (List Char) :=
  findRomBlocksAux cs.length cs

/-- Keyword `name` of `name\s+"(.*?)"`. -/
def nameKw : List Char := ['n', 'a', 'm', 'e']

/-- Keyword `description` of `description\s+"(.*?)"`. -/
def descKw : List Char := ['d', 'e', 's', 'c', 'r', 'i', 'p', 't', 'i', 'o', 'n']

/-- Keyword `size` of `size\s+(\d+)`. -/
def sizeKw : List Char := ['s', 'i', 'z', 'e']

/-- Keyword `crc` of `crc\s+([0-9a-fA-F]+)`. -/
def crcKw : List Char := ['c', 'r', 'c']

/-- Keyword `md5` of `md5\s+([0-9a-fA-F]+)`. -/
def md5Kw : List Char := ['m', 'd', '5']

/-- Keyword `sha1` of `sha1\s+([0-9a-fA-F]+)`. -/
def sha1Kw : List Char := ['s', 'h', 'a', '1']

/-- The character class `[0-9a-fA-F]`. -/
def isHexChar (c : Char) : Bool :=
  c.isDigit || ('a' ≤ c && c ≤ 'f') || ('A' ≤ c && c ≤ 'F')

/-- `int(digit_string)` for a non-empty run of ASCII digits. -/
def digitsToNat (ds : List Char) : Nat :=
  ds.foldl (fun a c => a * 10 + (c.toNat - '0'.toNat)) 0

/-- `name_pattern.search(game_block)`: game name, defaulting to `"Unknown"`. -/
def cmpGameName (gb : List Char) : String :=
  match searchQuoted nameKw gb with
  | some n => String.mk n
  | Option.none => "Unknown"

/-- `desc_pattern.search(game_block)`: description, defaulting to the game name. -/
def cmpDesc (gb : List Char) : String :=
  match searchQuoted descKw gb with
  | some d => String.mk d
  | Option.none => cmpGameName gb

/-- `int(r_size.group(1)) if r_size else 0`. -/
def cmpSize (rb : List Char) : Int :=
  match searchToken sizeKw Char.isDigit rb with
  | some ds => (digitsToNat ds : Int)
  | Option.none => 0

/-- A hex attribute of a rom block (`crc`, `md5` or `sha1`), defaulting to `""`. -/
def cmpHex (kw : List Char) (rb : List Char) : String :=
  match searchToken kw isHexChar rb with
  | some h => String.mk h
  | Option.none => ""

/-- One row per rom block, provided the rom has a `name` attribute
(`if r_name:`); a nameless rom entry is silently skipped. -/
def cmpRomRow (dat_filename platform game_name description system_name : String)
    (rb : List Char) : Option Record :=
  match searchQuoted nameKw rb with
  | Option.none => Option.none
  | some rn =>
    some { dat_filename := dat_filename, platform := platform,
           game_name := PyVal.str game_name,
           description := PyVal.str description,
           rom_name := PyVal.str (String.mk rn),
           size := PyVal.int (cmpSize rb),
           crc := PyVal.str (cmpHex crcKw rb),
           md5 := PyVal.str (cmpHex md5Kw rb),
           sha1 := PyVal.str (cmpHex sha1Kw rb),
           status := PyVal.str "good",
           system := system_name }

/-- All rows of one game block. -/
def cmpGameRows (dat_filename platform system_name : String) (gb : List Char) :
    List Record :=
  (findRomBlocks gb).filterMap
    (cmpRomRow dat_filename platform (cmpGameName gb) (cmpDesc gb) system_name)

/-- The pure body of `parse_cmp_dat_file` after a successful read. -/
def cmp_rows (path : String) (content : List Char) : List Record :=
  let dat_filename := pyBasename path
  let system_name := pyBasename (pyDirname path)
  let platform := pyPlatform dat_filename
  ((extract_game_blocks content).map
    (cmpGameRows dat_filename platform system_name)).flatten

/-- `parse_cmp_dat_file`: `read` is the outcome of opening/reading the file.
A read failure is logged (`logging.error`) and the function returns `[]` — it
does not raise.  The second component of the result is the log output. -/
def parse_cmp_dat_file (path : String) (read : Except String (List Char)) :
    Except String (List Record × List String) :=
  match read with
  | Except.error e =>
      Except.ok ([], ["FAILED (Read CMP): " ++ path ++ " -> " ++ e])
  | Except.ok content => Except.ok (cmp_rows path content, [])

/-- `parse_dat_file`: dispatch on the format sniffed by `_is_cmp_file`.
For a CMP file the whole call is wrapped in `try/except` returning `[]`;
for an XML file a parse failure (`ET.parse`) propagates to the caller. -/
def parse_dat_file (isCmp : Bool) (path : String)
    (cmpRead : Except String (List Char))
    (xmlDoc : Except String (List XmlGame)) : Except String (List Record) :=
  if isCmp then
    match parse_cmp_dat_file path cmpRead with
    | Except.ok (rows, _) => Except.ok rows
    | Except.error _ => Except.ok []
  else
    match xmlDoc with
    | Except.ok games => Except.ok (parse_xml_dat_file path games)
    | Except.error e => Except.error e

/-! ### The import session (`session.py`) -/

/-- What a worker's `parser.parse(file_path)` (or `future.result()`) does:
either a list of records, or it raises an exception with a message. -/
inductive ParseOutcome where
  | ok : List Record → ParseOutcome
  | err : String → ParseOutcome
deriving DecidableEq, Repr

/-- The persistent store: the `roms` table and the committed
(`processed_files`) file names. -/
structure Store where
  roms : List Record
  processed : List String
deriving DecidableEq, Repr

/-- The mutable state of an `ImportSession`. -/
structure SessionState where
  buffer : List Record
  total_roms : Nat
  error_count : Nat
  store : Store
deriving DecidableEq, Repr

/-- `ImportSession.__init__`: empty buffer, zero counters. -/
def initSession (st : Store) : SessionState :=
  { buffer := [], total_roms := 0, error_count := 0, store := st }

/-- Does `cs` contain `pat` as a contiguous substring? -/
def hasSub (pat : List Char) : List Char → Bool
  | [] => pat.isEmpty
  | c :: cs => leadMatch pat (c :: cs) || hasSub pat cs

/-- The fatal-error predicate of `_run_serial`/`_run_parallel`:
`error_msg = str(error).lower()` contains `"not enough space"` or
`"read-only file system"`. -/
def fatalMsg (m : String) : Bool :=
  hasSub "not enough space".data (m.data.map Char.toLower) ||
  hasSub "read-only file system".data (m.data.map Char.toLower)

/-- The message of the `OSError` raised when the predicate fires. -/
def criticalDiskMsg : String := "CRITICAL: Disk is full or not writable!"

/-- Modelled from the spec: `DatabaseManager.insert_batch` (the
`turbo_tosec.database` module is not in the source tree; only its caller
`ImportSession._flush_buffer` is).  Per the spec's flush contract (§4.4.1),
the batched write happens first, then every distinct source file name in the
batch is marked committed; a failing write raises before any marking.  `ins`
is the storage oracle giving the batched write's outcome. -/
def insert_batch (ins : List Record → Except String Unit)
    (batch : List Record) (st : Store) : Except String Store :=
  match ins batch with
  | Except.error m => Except.error m
  | Except.ok _ =>
      Except.ok
        { roms := st.roms ++ batch,
          processed := st.processed ++
            ((batch.map Record.dat_filename).dedup.filter
              (fun f => !(st.processed.contains f))) }

/-- `ImportSession._flush_buffer`: on a non-empty buffer, insert the batch
(with committed-file marking), add its length to `total_roms`, clear the
buffer.  A raised storage error is returned as the second component; the
state is then unchanged (the failed batch stays buffered, nothing marked). -/
def session_flush (ins : List Record → Except String Unit)
    (s : SessionState) : SessionState × Option String :=
  if s.buffer.isEmpty then (s, Option.none)
  else
    match insert_batch ins s.buffer s.store with
    | Except.error m => (s, some m)
    | Except.ok st2 =>
        ({ buffer := [], total_roms := s.total_roms + s.buffer.length,
           error_count := s.error_count, store := st2 }, Option.none)

/-- `ImportSession._process_result`: append non-empty data to the buffer and
flush once the buffer reaches the batch size.  The second component is the
message of an exception raised by the flush (the appended data stays in the
buffer in that case, since Python's `extend` already happened). -/
def process_result (ins : List Record → Except String Unit) (batchSize : Nat)
    (data : List Record) (s : SessionState) : SessionState × Option String :=
  if data.isEmpty then (s, Option.none)
  else
    let s1 := { s with buffer := s.buffer ++ data }
    if batchSize ≤ s1.buffer.length then session_flush ins s1
    else (s1, Option.none)

/-- One iteration of `_run_serial` (and, identically, of the result-consuming
loop of `_run_parallel`): parse result or exception, `_process_result`, and
the fatal-error predicate on any caught failure.  The second component is the
raised `OSError` message when the predicate fires. -/
def run_item (ins : List Record → Except String Unit) (batchSize : Nat)
    (s : SessionState) (o : ParseOutcome) : SessionState × Option String :=
  match o with
  | ParseOutcome.err m =>
      if fatalMsg m then (s, some criticalDiskMsg)
      else ({ s with error_count := s.error_count + 1 }, Option.none)
  | ParseOutcome.ok data =>
      match process_result ins batchSize data s with
      | (s1, Option.none) => (s1, Option.none)
      | (s1, some m) =>
          if fatalMsg m then (s1, some criticalDiskMsg)
          else ({ s1 with error_count := s1.error_count + 1 }, Option.none)

/-- `ImportSession._run_serial`: the items in work-list order, stopping at a
raised fatal error. -/
def run_serial (ins : List Record → Except String Unit) (batchSize : Nat) :
    List ParseOutcome → SessionState → SessionState × Option String
  | [], s => (s, Option.none)
  | o :: rest, s =>
    match run_item ins batchSize s o with
    | (s1, Option.none) => run_serial ins batchSize rest s1
    | (s1, some m) => (s1, some m)

/-- `ImportSession.run` (serial path): run the loop, then the final
`_flush_buffer`; any exception (the fatal `OSError` of the loop, or a failure
of the final flush) is caught by `except Exception`, reported (third
component), and the counters are returned regardless. -/
def ImportSession_run (ins : List Record → Except String Unit)
    (batchSize : Nat) (outcomes : List ParseOutcome) (st : Store) :
    (Nat × Nat) × Store × Option String :=
  match run_serial ins batchSize outcomes (initSession st) with
  | (s1, Option.none) =>
    (((session_flush ins s1).1.total_roms, (session_flush ins s1).1.error_count),
     (session_flush ins s1).1.store, (session_flush ins s1).2)
  | (s1, some m) => ((s1.total_roms, s1.error_count), s1.store, some m)

/-- `ImportSession._run_parallel`: workers only parse; the single consumer
applies the very same per-item logic (`_process_result` and the fatal-error
predicate) to the results in completion order, which is an arbitrary
permutation of the submission order.  Hence the parallel run is the serial
loop over the completion order. -/
def ImportSession_run_parallel (ins : List Record → Except String Unit)
    (batchSize : Nat) (completionOrder : List ParseOutcome) (st : Store) :
    (Nat × Nat) × Store × Option String :=
  ImportSession_run ins batchSize completionOrder st

/-- A storage oracle whose batched writes always succeed. -/
def okIns : List Record → Except String Unit := fun _ => Except.ok ()

/-- The records of the successful outcomes of a work list, in list order. -/
def okJoin (l : List ParseOutcome) : List Record :=
  (l.map (fun o => match o with
    | ParseOutcome.ok d => d
    | ParseOutcome.err _ => [])).flatten

/-- Total number of records among the successful outcomes. -/
def sumLens (l : List ParseOutcome) : Nat :=
  (l.map (fun o => match o with
    | ParseOutcome.ok d => d.length
    | ParseOutcome.err _ => 0)).sum

/-- Number of failed outcomes. -/
def errCount (l : List ParseOutcome) : Nat :=
  l.countP (fun o => match o with
    | ParseOutcome.ok _ => false
    | ParseOutcome.err _ => true)

/-! ### The monolithic importer loop of `tosec_importer.main` -/

/-- The state of `main`'s import loop: the write buffer, the two counters and
the two tables touched by `flush_buffer`. -/
structure MainState where
  buffer : List Record
  total_roms : Nat
  error_count : Nat
  roms : List Record
  processed : List String
deriving DecidableEq, Repr

/-- Operations `flush_buffer` issues against the database, in order. -/
inductive DbEvent where
  | insertRoms : List Record → DbEvent
  | markProcessed : String → DbEvent
deriving DecidableEq, Repr

/-- `unique_files = {row[0] for row in buffer}`: the distinct source file
names present in the buffer. -/
def uniqueNames (buf : List Record) : List String :=
  (buf.map Record.dat_filename).dedup

/-- `flush_buffer` of `tosec_importer.main`: on a non-empty buffer, run the
batched `executemany` insert first (`ok` is its outcome); only if it
succeeds, `INSERT OR IGNORE` each distinct source file name into
`processed_files`, add the buffer length to `total_roms` and clear the
buffer.  A failed insert raises out of `flush_buffer` at once: no marking,
no clearing, no counting.  The returned list is the ordered trace of
database operations issued. -/
def flush_buffer (ok : Bool) (s : MainState) : MainState × List DbEvent :=
  if s.buffer.isEmpty then (s, [])
  else if ok then
    ({ buffer := [],
       total_roms := s.total_roms + s.buffer.length,
       error_count := s.error_count,
       roms := s.roms ++ s.buffer,
       processed := s.processed ++
         (uniqueNames s.buffer).filter (fun f => !(s.processed.contains f)) },
     DbEvent.insertRoms s.buffer :: (uniqueNames s.buffer).map DbEvent.markProcessed)
  else (s, [DbEvent.insertRoms s.buffer])

/-- One iteration of `main`'s serial loop over `files_to_process` (the
parallel loop's consumer body is identical): parse; on non-empty data extend
the buffer and flush at the batch threshold; any exception (parse failure or
flush failure) increments `error_count` and the loop continues — `main` has
no fatal-error predicate.  `ins` tells whether a batched insert succeeds. -/
def main_step (ins : List Record → Bool) (batchSize : Nat) (s : MainState)
    (it : String × ParseOutcome) : MainState :=
  match it.2 with
  | ParseOutcome.err _ => { s with error_count := s.error_count + 1 }
  | ParseOutcome.ok data =>
    if data.isEmpty then s
    else
      let s1 := { s with buffer := s.buffer ++ data }
      if batchSize ≤ s1.buffer.length then
        if ins s1.buffer then (flush_buffer true s1).1
        else { s1 with error_count := s1.error_count + 1 }
      else s1

/-- `main`'s loop over the whole work list. -/
def main_run (ins : List Record → Bool) (batchSize : Nat) :
    List (String × ParseOutcome) → MainState → MainState
  | [], s => s
  | it :: rest, s => main_run ins batchSize rest (main_step ins batchSize s it)

/-- The state at the start of `main`'s loop: empty buffer, zero counters,
whatever the database already holds. -/
def initMain (roms0 : List Record) (processed0 : List String) : MainState :=
  { buffer := [], total_roms := 0, error_count := 0,
    roms := roms0, processed := processed0 }

/-- The loop invariant tying `main`'s flush/commit protocol to its state:
(1) every record of a consumed successful item is either stored or still
buffered; (2) if a consumed item's file name is committed, all its records
are stored; (3) committed names are either pre-existing or names of consumed
items; (4) buffered records all come from consumed items. -/
def MainInv (processed0 : List String)
    (consumed : List (String × ParseOutcome)) (s : MainState) : Prop :=
  (∀ it ∈ consumed, ∀ recs, it.2 = ParseOutcome.ok recs →
      ∀ r ∈ recs, r ∈ s.roms ∨ r ∈ s.buffer) ∧
  (∀ it ∈ consumed, ∀ recs, it.2 = ParseOutcome.ok recs →
      it.1 ∈ s.processed → ∀ r ∈ recs, r ∈ s.roms) ∧
  (∀ f ∈ s.processed, f ∈ processed0 ∨ f ∈ consumed.map Prod.fst) ∧
  (∀ r ∈ s.buffer, ∃ it ∈ consumed, ∃ recs,
      it.2 = ParseOutcome.ok recs ∧ r ∈ recs)

/-! ### The resume planner -/

/-- Resume mode of `main`:
`[f for f in all_dat_files if os.path.basename(f) not in processed_set]`. -/
def resume_files_to_process (all_dat_files : List String)
    (processed_set : List String) : List String :=
  all_dat_files.filter (fun f => !(processed_set.contains (pyBasename f)))

/-! ### Concrete inputs used by witnesses and counterexamples -/

/-- A legacy game block whose rom carries an explicit `status` attribute. -/
def cmpDemoContent : List Char :=
  "game ( name \"G\" rom ( name \"r.tap\" size 12 status baddump ) )".data

/-- The single record `parse_cmp_dat_file` produces for `cmpDemoContent`
under path `d/f.dat`. -/
def cmpDemoRecord : Record :=
  { dat_filename := "f.dat", platform := "f.dat", game_name := PyVal.str "G",
    description := PyVal.str "G", rom_name := PyVal.str "r.tap",
    size := PyVal.int 12, crc := PyVal.str "", md5 := PyVal.str "",
    sha1 := PyVal.str "", status := PyVal.str "good", system := "d" }

/-- A legacy file with a game whose description contains literal
parentheses, followed by a truncated anchor at end-of-file. -/
def c5DemoContent : List Char :=
  "game ( name \"A\" description \"B (proto) (x)\" rom ( name \"r\" ) ) game ( name \"T\"".data

/-- A `<rom>` element carrying only a `name` attribute. -/
def xmlBareRom : XmlRom :=
  { name := some "r.tap", size := Option.none, crc := Option.none,
    md5 := Option.none, sha1 := Option.none, status := Option.none }

/-- A `<game>` element with no `<description>` child. -/
def xmlGameNoDesc : XmlGame :=
  { name := some "GameG", descNode := Option.none, roms := [xmlBareRom] }

/-- A sample record from file `a.dat`. -/
def demoRec1 : Record :=
  { dat_filename := "a.dat", platform := "a.dat", game_name := PyVal.str "g",
    description := PyVal.str "g", rom_name := PyVal.str "r1",
    size := PyVal.int 1, crc := PyVal.str "", md5 := PyVal.str "",
    sha1 := PyVal.str "", status := PyVal.str "good", system := "s" }

/-- A storage oracle that always reports a full disk. -/
def insNoSpace : List Record → Except String Unit :=
  fun _ => Except.error "IO Error: not enough space on device"

/-- A work list with one successful file followed by a fatal failure. -/
def demoOutcomesA : List ParseOutcome :=
  [ParseOutcome.ok [demoRec1], ParseOutcome.err "not enough space"]

/-- A one-item work list for `main`'s loop: file `a.dat` parses to one
record. -/
def demoItems : List (String × ParseOutcome) :=
  [("a.dat", ParseOutcome.ok [demoRec1])]

/-- A DAT file path with a ` - ` separator in its name and a parent
directory. -/
def xmlDemoPath : String := "TOSEC/Commodore 64/Commodore 64 - Games.dat"

/-- Two well-formed `<game>` elements with one `<rom>` child each. -/
def xmlDemoGames : List XmlGame :=
  [{ name := some "G1", descNode := some (some "D1"),
     roms := [{ name := some "r1", size := some "10", crc := some "c",
                md5 := some "m", sha1 := some "s", status := some "good" }] },
   { name := some "G2", descNode := Option.none,
     roms := [xmlBareRom] }]

/-! ### Theorems -/

/-- A pattern matches at the start of itself followed by anything. -/
theorem leadMatch_self_append (s t : List Char) : leadMatch s (s ++ t) = true := by
  induction s with
  | nil => rfl
  | cons c cs ih => simp [leadMatch, ih]

/-- `split(' - ')[0]` returns exactly the part before the separator when no
earlier position matches the separator. -/
theorem firstSeg_before_sep (p r : List Char)
    (h : ∀ i < p.length,
        leadMatch sepChars ((p ++ sepChars ++ r).drop i) = false) :
    firstSeg sepChars (p ++ sepChars ++ r) = p := by
  induction p with
  | nil =>
    have hlm := leadMatch_self_append sepChars r
    simp only [List.nil_append]
    simp only [sepChars, List.cons_append, List.nil_append] at hlm ⊢
    simp [firstSeg, hlm]
  | cons c p ih =>
    have h0 := h 0 (by simp)
    simp only [List.drop_zero, List.cons_append] at h0
    simp only [List.cons_append]
    rw [firstSeg, h0]
    simp only [Bool.false_eq_true, if_false, List.cons.injEq, true_and]
    refine ih fun i hi => ?_
    have := h (i + 1) (by simpa using Nat.succ_lt_succ hi)
    simpa using this

/-- C8: running the import session on an empty work list returns exactly
`(0, 0)` as `(total_roms, error_count)`, leaves the store untouched (no
batched insert, no committed-file marking — the result is the initial store
whatever the storage oracle `ins` would do), and reports no error. -/
theorem C8_empty_worklist_no_write (ins : List Record → Except String Unit)
    (batchSize : Nat) (st : Store) :
    ImportSession_run ins batchSize [] st = ((0, 0), st, Option.none) := by
  simp [ImportSession_run, run_serial, session_flush, initSession]

/-- C9: resume mode keeps exactly the discovered files whose base name is
not in the committed set; matching is by base name only, so any file whose
base name was ever committed is excluded, whatever directory it is in. -/
theorem C9_resume_basename_filter (allFiles processed : List String) :
    (∀ f, f ∈ resume_files_to_process allFiles processed ↔
        f ∈ allFiles ∧ pyBasename f ∉ processed) ∧
    (∀ f, pyBasename f ∈ processed →
        f ∉ resume_files_to_process allFiles processed) := by
  have h1 : ∀ f, f ∈ resume_files_to_process allFiles processed ↔
      f ∈ allFiles ∧ pyBasename f ∉ processed := by
    intro f
    simp [resume_files_to_process, List.mem_filter]
  exact ⟨h1, fun f hf hmem => ((h1 f).1 hmem).2 hf⟩

/-- Witness for C9: `b/x.dat` recurs in a different directory than the
committed `a/x.dat`, and is excluded from the resume work list. -/
theorem C9_resume_basename_filter_witness :
    pyBasename "b/x.dat" ∈ ["x.dat"] ∧
    "b/x.dat" ∉ resume_files_to_process ["a/x.dat", "b/x.dat"] ["x.dat"] :=
  ⟨by decide,
   (C9_resume_basename_filter ["a/x.dat", "b/x.dat"] ["x.dat"]).2 "b/x.dat"
     (by decide)⟩

/-- C10: every record the legacy parser emits has status `"good"`; a
`status` attribute present in the rom block is never propagated. -/
theorem C10_legacy_status_always_good (path : String) (content : List Char) :
    ∀ r ∈ cmp_rows path content, r.status = PyVal.str "good" := by
  intro r hr
  simp only [cmp_rows, List.mem_flatten, List.mem_map] at hr
  obtain ⟨l, ⟨gb, hgb, rfl⟩, hr⟩ := hr
  simp only [cmpGameRows, List.mem_filterMap] at hr
  obtain ⟨rb, hrb, hrow⟩ := hr
  unfold cmpRomRow at hrow
  split at hrow
  · exact absurd hrow (by simp)
  · simp only [Option.some.injEq] at hrow
    subst hrow
    rfl

/-- Witness for C10: a rom block with `status baddump` still yields status
`"good"`. -/
theorem C10_legacy_status_always_good_witness :
    cmpDemoRecord ∈ cmp_rows "d/f.dat" cmpDemoContent ∧
    cmpDemoRecord.status = PyVal.str "good" :=
  have hm : cmpDemoRecord ∈ cmp_rows "d/f.dat" cmpDemoContent := by decide
  ⟨hm, C10_legacy_status_always_good "d/f.dat" cmpDemoContent cmpDemoRecord hm⟩

/-- C3 counterexample: in the XML-dialect parser a rom entry lacking `size`
yields the Python value `None`, not the integer 0, and a game lacking
`description` yields the empty string, not the game's name. -/
theorem C3_xml_defaults_counterexample :
    (parse_xml_dat_file "dats/C64/A - B.dat" [xmlGameNoDesc]).map Record.size
        = [PyVal.none] ∧
    PyVal.none ≠ PyVal.int 0 ∧
    (parse_xml_dat_file "dats/C64/A - B.dat" [xmlGameNoDesc]).map
        Record.description = [PyVal.str ""] ∧
    (parse_xml_dat_file "dats/C64/A - B.dat" [xmlGameNoDesc]).map
        Record.game_name = [PyVal.str "GameG"] ∧
    PyVal.str "" ≠ PyVal.str "GameG" := by
  decide

/-- C3 (amended): in the XML parser a missing `status` defaults to
`"good"`, but a missing `size` propagates as `None` and a missing
`description` becomes `""`; in the legacy parser a missing `description`
defaults to the game name, a missing `size` defaults to the integer 0, and
`status` is the constant `"good"`. -/
theorem C3_defaults_amended (path : String) (games : List XmlGame)
    (content : List Char) :
    (∀ r ∈ parse_xml_dat_file path games, ∃ g ∈ games, ∃ rom ∈ g.roms,
        r.status = PyVal.str (rom.status.getD "good") ∧
        r.size = optVal rom.size ∧
        r.game_name = optVal g.name ∧
        r.description = (match g.descNode with
          | Option.none => PyVal.str ""
          | some t => optVal t)) ∧
    (∀ gb : List Char, searchQuoted descKw gb = Option.none →
        cmpDesc gb = cmpGameName gb) ∧
    (∀ rb : List Char, searchToken sizeKw Char.isDigit rb = Option.none →
        cmpSize rb = 0) ∧
    (∀ r ∈ cmp_rows path content,
        r.status = PyVal.str "good" ∧
        ∃ gb ∈ extract_game_blocks content, ∃ rb ∈ findRomBlocks gb,
          r.size = PyVal.int (cmpSize rb) ∧
          r.description = PyVal.str (cmpDesc gb)) := by
  refine ⟨?_, ?_, ?_, ?_⟩
  · intro r hr
    simp only [parse_xml_dat_file, List.mem_flatten, List.mem_map] at hr
    obtain ⟨l, ⟨g, hg, rfl⟩, hr⟩ := hr
    simp only [xmlGameRecords, List.mem_map] at hr
    obtain ⟨rom, hrom, rfl⟩ := hr
    exact ⟨g, hg, rom, hrom, rfl, rfl, rfl, rfl⟩
  · intro gb h
    simp [cmpDesc, h]
  · intro rb h
    simp [cmpSize, h]
  · intro r hr
    simp only [cmp_rows, List.mem_flatten, List.mem_map] at hr
    obtain ⟨l, ⟨gb, hgb, rfl⟩, hr⟩ := hr
    simp only [cmpGameRows, List.mem_filterMap] at hr
    obtain ⟨rb, hrb, hrow⟩ := hr
    unfold cmpRomRow at hrow
    split at hrow
    · exact absurd hrow (by simp)
    · simp only [Option.some.injEq] at hrow
      subst hrow
      exact ⟨rfl, gb, hgb, rb, hrb, rfl, rfl⟩

/-- Witness for the amended C3: a game block with no `description` property
takes the game name as description. -/
theorem C3_defaults_amended_witness :
    searchQuoted descKw ("name \"G\"".data) = Option.none ∧
    cmpDesc ("name \"G\"".data) = cmpGameName ("name \"G\"".data) :=
  ⟨by decide,
   (C3_defaults_amended "x" [] []).2.1 ("name \"G\"".data) (by decide)⟩

/-- C4 counterexample: a legacy file whose open/read fails does not surface
a failure to the caller — `parse_cmp_dat_file` logs and returns the normal
empty result, and the dispatching `parse_dat_file` returns `[]`, exactly as
for a file with no game blocks. -/
theorem C4_read_failure_counterexample :
    parse_cmp_dat_file "d/f.dat" (Except.error "Errno 28") =
      Except.ok ([], ["FAILED (Read CMP): d/f.dat -> Errno 28"]) ∧
    parse_dat_file true "d/f.dat" (Except.error "Errno 28") (Except.ok []) =
      Except.ok [] ∧
    parse_cmp_dat_file "d/f.dat" (Except.ok []) = Except.ok ([], []) :=
  ⟨rfl, rfl, rfl⟩

/-- C4 (amended): the legacy parser never fails the whole file — neither a
malformed block (they are skipped) nor an unreadable file makes it raise; an
unreadable file is logged as a per-file read failure but yields the normal
empty record list to the caller. -/
theorem C4_legacy_never_fails_amended (path : String)
    (read : Except String (List Char))
    (xmlDoc : Except String (List XmlGame)) :
    (∃ out, parse_cmp_dat_file path read = Except.ok out) ∧
    (∃ rows, parse_dat_file true path read xmlDoc = Except.ok rows) ∧
    (∀ e, read = Except.error e →
        parse_cmp_dat_file path read =
          Except.ok ([], ["FAILED (Read CMP): " ++ path ++ " -> " ++ e]) ∧
        parse_dat_file true path read xmlDoc = Except.ok []) := by
  refine ⟨?_, ?_, ?_⟩
  · cases read with
    | error e => exact ⟨_, rfl⟩
    | ok content => exact ⟨_, rfl⟩
  · cases read with
    | error e => exact ⟨[], rfl⟩
    | ok content => exact ⟨cmp_rows path content, rfl⟩
  · intro e he
    subst he
    exact ⟨rfl, rfl⟩

/-- Witness for the amended C4: a concrete failing read. -/
theorem C4_legacy_never_fails_amended_witness :
    parse_cmp_dat_file "d/g.dat" (Except.error "Errno 30") =
      Except.ok ([], ["FAILED (Read CMP): d/g.dat -> Errno 30"]) ∧
    parse_dat_file true "d/g.dat" (Except.error "Errno 30") (Except.ok []) =
      Except.ok [] :=
  (C4_legacy_never_fails_amended "d/g.dat" (Except.error "Errno 30")
    (Except.ok [])).2.2 "Errno 30" rfl

/-- C6: a well-formed XML-dialect file with N games of M roms each yields
exactly N×M records, each carrying the collection name (the filename prefix
before the literal `" - "`) and the group name (the immediate parent
directory); a game with zero roms contributes zero records and the parse
still succeeds. -/
theorem C6_xml_round_trip (path : String) (games : List XmlGame) (M : Nat)
    (hM : ∀ g ∈ games, g.roms.length = M) :
    (parse_xml_dat_file path games).length = games.length * M ∧
    (∀ r ∈ parse_xml_dat_file path games,
        r.dat_filename = pyBasename path ∧
        r.platform = pyPlatform (pyBasename path) ∧
        r.system = pyBasename (pyDirname path)) ∧
    (∀ (gs1 : List XmlGame) (g : XmlGame) (gs2 : List XmlGame), g.roms = [] →
        parse_xml_dat_file path (gs1 ++ g :: gs2) =
          parse_xml_dat_file path gs1 ++ parse_xml_dat_file path gs2) ∧
    (∀ p r : List Char,
        (∀ i < p.length,
            leadMatch sepChars ((p ++ sepChars ++ r).drop i) = false) →
        pyPlatform (String.mk (p ++ sepChars ++ r)) = String.mk p) := by
  have len : ∀ gs : List XmlGame, (∀ g ∈ gs, g.roms.length = M) →
      (parse_xml_dat_file path gs).length = gs.length * M := by
    intro gs
    induction gs with
    | nil => intro _; simp [parse_xml_dat_file]
    | cons g gs ih =>
      intro hgs
      have hg := hgs g (List.mem_cons_self g gs)
      have ihv := ih fun g2 h2 => hgs g2 (List.mem_cons_of_mem _ h2)
      simp only [parse_xml_dat_file, List.map_cons, List.flatten_cons,
        List.length_append, List.length_cons] at ihv ⊢
      rw [ihv]
      simp only [xmlGameRecords, List.length_map, hg]
      ring
  have fields : ∀ r ∈ parse_xml_dat_file path games,
      r.dat_filename = pyBasename path ∧
      r.platform = pyPlatform (pyBasename path) ∧
      r.system = pyBasename (pyDirname path) := by
    intro r hr
    simp only [parse_xml_dat_file, List.mem_flatten, List.mem_map] at hr
    obtain ⟨l, ⟨g, hg, rfl⟩, hr⟩ := hr
    simp only [xmlGameRecords, List.mem_map] at hr
    obtain ⟨rom, hrom, rfl⟩ := hr
    exact ⟨rfl, rfl, rfl⟩
  have zero : ∀ (gs1 : List XmlGame) (g : XmlGame) (gs2 : List XmlGame),
      g.roms = [] →
      parse_xml_dat_file path (gs1 ++ g :: gs2) =
        parse_xml_dat_file path gs1 ++ parse_xml_dat_file path gs2 := by
    intro gs1 g gs2 hg
    simp [parse_xml_dat_file, xmlGameRecords, hg]
  have plat : ∀ p r : List Char,
      (∀ i < p.length,
          leadMatch sepChars ((p ++ sepChars ++ r).drop i) = false) →
      pyPlatform (String.mk (p ++ sepChars ++ r)) = String.mk p := by
    intro p r h
    unfold pyPlatform
    exact congrArg String.mk (firstSeg_before_sep p r h)
  exact ⟨len games hM, fields, zero, plat⟩

/-- Witness for C6: two games with one rom each yield exactly 2×1 records. -/
theorem C6_xml_round_trip_witness :
    (∀ g ∈ xmlDemoGames, g.roms.length = 1) ∧
    (parse_xml_dat_file xmlDemoPath xmlDemoGames).length =
      xmlDemoGames.length * 1 :=
  ⟨by decide, (C6_xml_round_trip xmlDemoPath xmlDemoGames 1 (by decide)).1⟩

/-- Parenthesis count over a cons cell. -/
theorem opensIn_cons (c : Char) (l : List Char) :
    opensIn (c :: l) = opensIn l + (if c = '(' then 1 else 0) := by
  simp [opensIn, List.countP_cons]

/-- Closing-parenthesis count over a cons cell. -/
theorem closesIn_cons (c : Char) (l : List Char) :
    closesIn (c :: l) = closesIn l + (if c = ')' then 1 else 0) := by
  simp [closesIn, List.countP_cons]

/-- What a successful depth-balanced scan returns: the number of characters
up to the first point at which the running depth returns to zero. -/
theorem scanDepth_some_spec (cs : List Char) :
    ∀ b n : Nat, scanDepth cs b = some n →
      n ≤ cs.length ∧ b + opensIn (cs.take n) = closesIn (cs.take n) ∧
      ∀ m < n, closesIn (cs.take m) < b + opensIn (cs.take m) := by
  induction cs with
  | nil =>
    intro b n h
    cases b with
    | zero =>
      simp only [scanDepth, Option.some.injEq] at h
      subst h
      exact ⟨Nat.le_refl 0, by simp [opensIn, closesIn],
             fun m hm => absurd hm (by omega)⟩
    | succ b => simp [scanDepth] at h
  | cons c cs ih =>
    intro b n h
    cases b with
    | zero =>
      simp only [scanDepth, Option.some.injEq] at h
      subst h
      exact ⟨Nat.zero_le _, by simp [opensIn, closesIn],
             fun m hm => absurd hm (by omega)⟩
    | succ b =>
      rw [scanDepth] at h
      simp only [Option.map_eq_some'] at h
      obtain ⟨n', h2, rfl⟩ := h
      obtain ⟨hle, heq, hlt⟩ := ih _ n' h2
      refine ⟨by simpa using Nat.succ_le_succ hle, ?_, ?_⟩
      · rw [List.take_succ_cons, opensIn_cons, closesIn_cons]
        split_ifs at heq ⊢ <;> first | omega | simp_all
      · intro m hm
        cases m with
        | zero => simp [opensIn, closesIn]
        | succ m =>
          have := hlt m (by omega)
          rw [List.take_succ_cons, opensIn_cons, closesIn_cons]
          split_ifs at this ⊢ <;> first | omega | simp_all
/-- When the depth-balanced scan runs off the end of the input, the depth
never returned to zero at any point. -/
theorem scanDepth_none_spec (cs : List Char) :
    ∀ b : Nat, scanDepth cs b = Option.none →
      ∀ m ≤ cs.length, closesIn (cs.take m) < b + opensIn (cs.take m) := by
  induction cs with
  | nil =>
    intro b h m hm
    cases b with
    | zero => simp [scanDepth] at h
    | succ b =>
      have hm0 : m = 0 := by simpa using hm
      subst hm0
      simp [opensIn, closesIn]
  | cons c cs ih =>
    intro b h m hm
    cases b with
    | zero => simp [scanDepth] at h
    | succ b =>
      rw [scanDepth] at h
      simp only [Option.map_eq_none'] at h
      cases m with
      | zero => simp [opensIn, closesIn]
      | succ m =>
        have := ih _ h m (by simpa using hm)
        rw [List.take_succ_cons, opensIn_cons, closesIn_cons]
        split_ifs at this ⊢ <;> first | omega | simp_all

/-- Removing an element on which `f` yields `none` does not change a
`filterMap`. -/
theorem filterMap_erase_none {α β : Type} [DecidableEq α] (f : α → Option β) :
    ∀ (l : List α) (a : α), a ∈ l → f a = Option.none →
      l.filterMap f = (l.erase a).filterMap f := by
  intro l
  induction l with
  | nil => intro a ha _; exact absurd ha (List.not_mem_nil a)
  | cons b l ih =>
    intro a ha hf
    by_cases hba : b = a
    · subst hba
      rw [List.erase_cons_head]
      simp [List.filterMap_cons, hf]
    · rw [List.erase_cons_tail (by simpa using hba)]
      rcases List.mem_cons.1 ha with h | h
      · exact absurd h.symm hba
      · simp only [List.filterMap_cons]
        cases hfb : f b <;> simp [ih a h hf]

/-- C5: from every anchor, the block is delimited by the depth-balanced scan
starting at depth 1: if it stops after `n` characters, that point is the
first at which the depth returns to 0 (so parentheses inside the block,
e.g. in a description, stay inside it) and the block (the `n` characters
minus the final `)`) is among the extracted blocks; if end-of-file is
reached first, the depth never returned to 0 and the anchor is discarded
while all other anchors are processed unchanged. -/
theorem C5_balanced_scan (content : List Char) (a : Nat)
    (ha : a ∈ findAnchors gameKw content 0) :
    (∀ n, scanDepth (content.drop a) 1 = some n →
        ((content.drop a).take (n - 1) ∈ extract_game_blocks content ∧
         n ≤ (content.drop a).length ∧
         1 + opensIn ((content.drop a).take n) =
           closesIn ((content.drop a).take n) ∧
         ∀ m < n, closesIn ((content.drop a).take m) <
           1 + opensIn ((content.drop a).take m))) ∧
    (scanDepth (content.drop a) 1 = Option.none →
        ((∀ m ≤ (content.drop a).length,
            closesIn ((content.drop a).take m) <
              1 + opensIn ((content.drop a).take m)) ∧
         extract_game_blocks content =
           ((findAnchors gameKw content 0).erase a).filterMap (fun s =>
             (scanDepth (content.drop s) 1).map
               (fun n => (content.drop s).take (n - 1))))) := by
  constructor
  · intro n hn
    obtain ⟨hle, heq, hlt⟩ := scanDepth_some_spec (content.drop a) 1 n hn
    refine ⟨List.mem_filterMap.2 ⟨a, ha, by rw [hn]; rfl⟩, hle, heq, hlt⟩
  · intro hn
    exact ⟨fun m hm => scanDepth_none_spec (content.drop a) 1 hn m hm,
           filterMap_erase_none _ _ a ha (by rw [hn]; rfl)⟩

/-- Witness for C5: the first anchor of `c5DemoContent` has a description
containing literal parentheses; the scan stops after 56 characters and the
55-character block is extracted in full. -/
theorem C5_balanced_scan_witness :
    (6 : Nat) ∈ findAnchors gameKw c5DemoContent 0 ∧
    scanDepth (c5DemoContent.drop 6) 1 = some 56 ∧
    (c5DemoContent.drop 6).take 55 ∈ extract_game_blocks c5DemoContent :=
  ⟨by decide, by decide,
   (((C5_balanced_scan c5DemoContent 6 (by decide)).1) 56 (by decide)).1⟩

/-- A non-empty list is not `isEmpty`. -/
theorem isEmpty_false_of_ne_nil {α : Type} {l : List α} (h : l ≠ []) :
    l.isEmpty = false := by
  cases l with
  | nil => exact absurd rfl h
  | cons a l => rfl

/-- Splitting a serial run at a list boundary. -/
theorem run_serial_append (ins : List Record → Except String Unit)
    (batchSize : Nat) (l1 l2 : List ParseOutcome) (s : SessionState) :
    run_serial ins batchSize (l1 ++ l2) s =
      match run_serial ins batchSize l1 s with
      | (s1, Option.none) => run_serial ins batchSize l2 s1
      | (s1, some m) => (s1, some m) := by
  induction l1 generalizing s with
  | nil => simp [run_serial]
  | cons o l1 ih =>
    rw [List.cons_append, run_serial, run_serial]
    cases hit : run_item ins batchSize s o with
    | mk s1 om =>
      cases om with
      | none => simp [ih]
      | some m => simp

/-- C2: a storage failure recognised by the fatal predicate (disk full /
read-only medium), raised by the batched insert during a flush, aborts the
run at that item with the distinct critical error: the queued items after it
are never processed, the store — in particular the committed-file set — is
exactly what it was before the failing flush (the in-flight batch marks
nothing), and `error_count` does not absorb the failure. -/
theorem C2_fatal_flush_short_circuit (ins : List Record → Except String Unit)
    (batchSize : Nat) (st : Store) (pre post : List ParseOutcome)
    (data : List Record) (s : SessionState) (m : String)
    (hpre : run_serial ins batchSize pre (initSession st) = (s, Option.none))
    (hdata : data ≠ [])
    (htrig : batchSize ≤ (s.buffer ++ data).length)
    (hins : ins (s.buffer ++ data) = Except.error m)
    (hfatal : fatalMsg m = true) :
    ImportSession_run ins batchSize (pre ++ ParseOutcome.ok data :: post) st =
      ((s.total_roms, s.error_count), s.store, some criticalDiskMsg) := by
  have hde : data.isEmpty = false := isEmpty_false_of_ne_nil hdata
  have hbe : (s.buffer ++ data).isEmpty = false :=
    isEmpty_false_of_ne_nil fun hc => hdata (List.append_eq_nil.mp hc).2
  have htrig2 : batchSize ≤ s.buffer.length + data.length := by
    simpa [List.length_append] using htrig
  have hitem : run_item ins batchSize s (ParseOutcome.ok data) =
      ({ s with buffer := s.buffer ++ data }, some criticalDiskMsg) := by
    simp [run_item, process_result, hde, session_flush, insert_batch,
      hbe, htrig, htrig2, hins, hfatal]
  unfold ImportSession_run
  rw [run_serial_append, hpre]
  simp only [run_serial, hitem]

/-- Witness for C2: one buffered file, then a full-disk failure at the
flush triggered by the second item. -/
theorem C2_fatal_flush_short_circuit_witness :
    run_serial insNoSpace 1 [] (initSession { roms := [], processed := [] }) =
      (initSession { roms := [], processed := [] }, Option.none) ∧
    ([demoRec1] : List Record) ≠ [] ∧
    1 ≤ ((initSession { roms := [], processed := [] }).buffer ++
          [demoRec1]).length ∧
    insNoSpace ((initSession { roms := [], processed := [] }).buffer ++
          [demoRec1]) = Except.error "IO Error: not enough space on device" ∧
    fatalMsg "IO Error: not enough space on device" = true ∧
    ImportSession_run insNoSpace 1
        ([] ++ ParseOutcome.ok [demoRec1] :: [ParseOutcome.err "boom"])
        { roms := [], processed := [] } =
      ((0, 0), { roms := [], processed := [] }, some criticalDiskMsg) :=
  ⟨rfl, by decide, by decide, rfl, by decide,
   C2_fatal_flush_short_circuit insNoSpace 1 { roms := [], processed := [] }
     [] [ParseOutcome.err "boom"] [demoRec1] _
     "IO Error: not enough space on device" rfl (by decide) (by decide) rfl
     (by decide)⟩

/-- C7 counterexample: with a fatal outcome in the work list, the result
depends on the processing order — the parallel mode consumes results in
completion order, so it need not produce the serial mode's counters or
stored records. -/
theorem C7_order_counterexample :
    demoOutcomesA.Perm demoOutcomesA.reverse ∧
    ImportSession_run okIns 1 demoOutcomesA { roms := [], processed := [] } ≠
      ImportSession_run_parallel okIns 1 demoOutcomesA.reverse
        { roms := [], processed := [] } :=
  ⟨(List.reverse_perm _).symm, by decide⟩

/-- One item under an always-succeeding store and a non-fatal outcome:
no abort, and the bookkeeping identities of the session state. -/
theorem run_item_ok_char (b : Nat) (s : SessionState) (o : ParseOutcome)
    (h : ∀ m, o = ParseOutcome.err m → fatalMsg m = false) :
    (run_item okIns b s o).2 = Option.none ∧
    (run_item okIns b s o).1.store.roms ++ (run_item okIns b s o).1.buffer =
      s.store.roms ++ s.buffer ++
        (match o with | ParseOutcome.ok d => d | ParseOutcome.err _ => []) ∧
    (run_item okIns b s o).1.total_roms +
        (run_item okIns b s o).1.buffer.length =
      s.total_roms + s.buffer.length +
        (match o with | ParseOutcome.ok d => d.length | ParseOutcome.err _ => 0) ∧
    (run_item okIns b s o).1.error_count = s.error_count +
      (match o with | ParseOutcome.ok _ => 0 | ParseOutcome.err _ => 1) := by
  cases o with
  | err m =>
    have hf := h m rfl
    simp [run_item, hf]
  | ok data =>
    by_cases hd : data = []
    · subst hd
      simp [run_item, process_result]
    · by_cases ht : b ≤ s.buffer.length + data.length
      · refine ⟨?_, ?_, ?_, ?_⟩ <;>
          simp [run_item, process_result, session_flush, insert_batch,
            okIns, hd, ht, List.append_assoc] <;>
          omega
      · refine ⟨?_, ?_, ?_, ?_⟩ <;>
          simp [run_item, process_result, session_flush, hd, ht,
            List.append_assoc] <;>
          omega

/-- A serial run under an always-succeeding store and non-fatal outcomes:
no abort, `roms ++ buffer` grows by exactly the successful records in list
order, `total_roms + buffer.length` by their count, `error_count` by the
number of failures. -/
theorem run_serial_ok_char (b : Nat) (l : List ParseOutcome) :
    ∀ s : SessionState, (∀ m, ParseOutcome.err m ∈ l → fatalMsg m = false) →
      (run_serial okIns b l s).2 = Option.none ∧
      (run_serial okIns b l s).1.store.roms ++ (run_serial okIns b l s).1.buffer =
        s.store.roms ++ s.buffer ++ okJoin l ∧
      (run_serial okIns b l s).1.total_roms +
          (run_serial okIns b l s).1.buffer.length =
        s.total_roms + s.buffer.length + sumLens l ∧
      (run_serial okIns b l s).1.error_count = s.error_count + errCount l := by
  induction l with
  | nil => intro s _; simp [run_serial, okJoin, sumLens, errCount]
  | cons o l ih =>
    intro s h
    have hi := run_item_ok_char b s o fun m hm =>
      h m (by rw [← hm]; exact List.mem_cons_self o l)
    rw [run_serial]
    cases hit : run_item okIns b s o with
    | mk s1 om =>
      rw [hit] at hi
      obtain ⟨h0, h1, h2, h3⟩ := hi
      subst h0
      have hiv := ih s1 fun m hm => h m (List.mem_cons_of_mem o hm)
      obtain ⟨g0, g1, g2, g3⟩ := hiv
      refine ⟨g0, ?_, ?_, ?_⟩
      · rw [g1, h1]
        cases o <;> simp [okJoin, List.append_assoc]
      · rw [g2, h2]
        cases o <;> simp [sumLens] <;> omega
      · rw [g3, h3]
        cases o <;> simp [errCount, List.countP_cons] <;> omega

/-- The final drain under an always-succeeding store: never raises, moves
the whole buffer into the store. -/
theorem session_flush_ok_char (s : SessionState) :
    (session_flush okIns s).2 = Option.none ∧
    (session_flush okIns s).1.store.roms = s.store.roms ++ s.buffer ∧
    (session_flush okIns s).1.total_roms = s.total_roms + s.buffer.length ∧
    (session_flush okIns s).1.error_count = s.error_count := by
  by_cases hb : s.buffer.isEmpty
  · have : s.buffer = [] := by
      cases hbuf : s.buffer with
      | nil => rfl
      | cons a t => rw [hbuf] at hb; exact absurd hb (by simp)
    refine ⟨?_, ?_, ?_, ?_⟩ <;> simp [session_flush, hb, this]
  · refine ⟨?_, ?_, ?_, ?_⟩ <;>
      simp [session_flush, hb, insert_batch, okIns]

/-- A permutation of lists of lists flattens to a permutation. -/
theorem perm_flatten {α : Type} {l1 l2 : List (List α)} (h : l1.Perm l2) :
    l1.flatten.Perm l2.flatten := by
  induction h with
  | nil => exact List.Perm.refl _
  | cons x _ ih => simpa using ih.append_left x
  | swap x y l =>
    simp only [List.flatten_cons, ← List.append_assoc]
    exact (List.perm_append_comm).append_right _
  | trans _ _ ih1 ih2 => exact ih1.trans ih2

/-- C7 (amended): when no outcome triggers the fatal predicate (and the
batched writes succeed), the serial mode and the parallel mode agree — for
every completion order — on the final `(total_roms, error_count)` and on the
multiset of stored records; neither aborts.  (The counterexample shows this
fails when a fatal outcome occurs: the processed prefix then depends on
completion order.) -/
theorem C7_modes_agree_amended (b : Nat) (st : Store)
    (l l2 : List ParseOutcome) (hperm : l.Perm l2)
    (hfatal : ∀ m, ParseOutcome.err m ∈ l → fatalMsg m = false) :
    (ImportSession_run okIns b l st).1 =
      (ImportSession_run_parallel okIns b l2 st).1 ∧
    Multiset.ofList (ImportSession_run okIns b l st).2.1.roms =
      Multiset.ofList (ImportSession_run_parallel okIns b l2 st).2.1.roms ∧
    (ImportSession_run okIns b l st).2.2 = Option.none ∧
    (ImportSession_run_parallel okIns b l2 st).2.2 = Option.none := by
  have hfatal2 : ∀ m, ParseOutcome.err m ∈ l2 → fatalMsg m = false :=
    fun m hm => hfatal m (hperm.symm.subset hm)
  have char : ∀ (l3 : List ParseOutcome),
      (∀ m, ParseOutcome.err m ∈ l3 → fatalMsg m = false) →
      (ImportSession_run okIns b l3 st).1 = (sumLens l3, errCount l3) ∧
      (ImportSession_run okIns b l3 st).2.1.roms = st.roms ++ okJoin l3 ∧
      (ImportSession_run okIns b l3 st).2.2 = Option.none := by
    intro l3 h3
    obtain ⟨r0, r1, r2, r3⟩ := run_serial_ok_char b l3 (initSession st) h3
    cases hrun : run_serial okIns b l3 (initSession st) with
    | mk s1 om =>
      rw [hrun] at r0 r1 r2 r3
      simp only at r0 r1 r2 r3
      subst r0
      obtain ⟨f0, f1, f2, f3⟩ := session_flush_ok_char s1
      unfold ImportSession_run
      rw [hrun]
      simp only [initSession, List.append_nil, List.length_nil,
        Nat.add_zero, Nat.zero_add] at r1 r2 r3
      refine ⟨?_, ?_, f0⟩
      · simp only [Prod.mk.injEq]
        constructor
        · rw [f2]; omega
        · rw [f3, r3]
      · rw [f1, r1]
  obtain ⟨c1, c2, c3⟩ := char l hfatal
  obtain ⟨d1, d2, d3⟩ := char l2 hfatal2
  have hsum : sumLens l = sumLens l2 := (hperm.map _).sum_eq
  have herr : errCount l = errCount l2 := hperm.countP_eq _
  have hjoin : (okJoin l).Perm (okJoin l2) := perm_flatten (hperm.map _)
  have hpar : ImportSession_run_parallel okIns b l2 st =
      ImportSession_run okIns b l2 st := rfl
  refine ⟨?_, ?_, c3, ?_⟩
  · rw [c1, hpar, d1, hsum, herr]
  · rw [c2, hpar, d2]
    exact Multiset.coe_eq_coe.2 ((List.Perm.refl st.roms).append hjoin)
  · rw [hpar, d3]

/-- Witness for the amended C7: two orders of a fatal-free work list give
the same counters. -/
theorem C7_modes_agree_amended_witness :
    ([ParseOutcome.ok [demoRec1], ParseOutcome.err "bad xml"].Perm
      [ParseOutcome.err "bad xml", ParseOutcome.ok [demoRec1]]) ∧
    (ImportSession_run okIns 2
        [ParseOutcome.ok [demoRec1], ParseOutcome.err "bad xml"]
        { roms := [], processed := [] }).1 =
      (ImportSession_run_parallel okIns 2
        [ParseOutcome.err "bad xml", ParseOutcome.ok [demoRec1]]
        { roms := [], processed := [] }).1 :=
  ⟨by decide,
   (C7_modes_agree_amended 2 { roms := [], processed := [] }
     [ParseOutcome.ok [demoRec1], ParseOutcome.err "bad xml"]
     [ParseOutcome.err "bad xml", ParseOutcome.ok [demoRec1]]
     (by decide)
     (by intro m hm; simp at hm; subst hm; decide)).1⟩

/-- Evaluating `flush_buffer` on a non-empty buffer with a successful
insert. -/
theorem flush_buffer_true_of_ne_nil (s : MainState) (h : s.buffer ≠ []) :
    (flush_buffer true s).1 =
      { buffer := [], total_roms := s.total_roms + s.buffer.length,
        error_count := s.error_count, roms := s.roms ++ s.buffer,
        processed := s.processed ++
          (uniqueNames s.buffer).filter (fun f => !(s.processed.contains f)) } := by
  simp [flush_buffer, isEmpty_false_of_ne_nil h]

/-- Names committed by a flush come from the file-name fields of the
buffered records. -/
theorem mem_flush_processed {s : MainState} {f : String}
    (hf : f ∈ s.processed ++
        (uniqueNames s.buffer).filter (fun g => !(s.processed.contains g))) :
    f ∈ s.processed ∨ ∃ r ∈ s.buffer, r.dat_filename = f := by
  rcases List.mem_append.1 hf with h | h
  · exact Or.inl h
  · right
    have := (List.mem_filter.1 h).1
    simp only [uniqueNames, List.mem_dedup, List.mem_map] at this
    obtain ⟨r, hr, hrf⟩ := this
    exact ⟨r, hr, hrf⟩

/-- One step of `main`'s loop preserves the invariant, provided the item's
records carry its file name, its name is not already committed at session
start, and no earlier item shares its name. -/
theorem main_step_inv (ins : List Record → Bool) (b : Nat)
    (processed0 : List String) (consumed : List (String × ParseOutcome))
    (it : String × ParseOutcome) (s : MainState)
    (hinv : MainInv processed0 consumed s)
    (hnameC : ∀ it2 ∈ consumed, ∀ recs, it2.2 = ParseOutcome.ok recs →
        ∀ r ∈ recs, r.dat_filename = it2.1)
    (hnameI : ∀ recs, it.2 = ParseOutcome.ok recs →
        ∀ r ∈ recs, r.dat_filename = it.1)
    (hfresh : it.1 ∉ processed0)
    (hnew : it.1 ∉ consumed.map Prod.fst) :
    MainInv processed0 (consumed ++ [it]) (main_step ins b s it) := by
  obtain ⟨i1, i2, i3, i4⟩ := hinv
  obtain ⟨nm, out⟩ := it
  -- weakenings of the invariant parts to the longer consumed list
  have w3 : ∀ (s2 : MainState), (∀ f ∈ s2.processed,
      f ∈ processed0 ∨ f ∈ consumed.map Prod.fst) →
      ∀ f ∈ s2.processed,
        f ∈ processed0 ∨ f ∈ (consumed ++ [(nm, out)]).map Prod.fst := by
    intro s2 h3 f hf
    refine (h3 f hf).imp id fun h => ?_
    rw [List.map_append]
    exact List.mem_append_left _ h
  cases out with
  | err m =>
    refine ⟨?_, ?_, w3 s i3, ?_⟩
    · intro it2 hit2 recs h2 r hr
      rcases List.mem_append.1 hit2 with h | h
      · exact i1 it2 h recs h2 r hr
      · simp only [List.mem_singleton] at h
        subst h
        simp at h2
    · intro it2 hit2 recs h2 hp r hr
      rcases List.mem_append.1 hit2 with h | h
      · exact i2 it2 h recs h2 hp r hr
      · simp only [List.mem_singleton] at h
        subst h
        simp at h2
    · intro r hr
      obtain ⟨it2, hit2, recs, h2, hrr⟩ := i4 r hr
      exact ⟨it2, List.mem_append_left _ hit2, recs, h2, hrr⟩
  | ok data =>
    -- the new consumed item's parse result is exactly `data`
    have hnewitem : ∀ recs, (ParseOutcome.ok data : ParseOutcome) =
        ParseOutcome.ok recs → recs = data := by
      intro recs h2
      cases h2
      rfl
    by_cases hd : data = []
    · subst hd
      have hstep : main_step ins b s (nm, ParseOutcome.ok []) = s := rfl
      rw [hstep]
      refine ⟨?_, ?_, w3 s i3, ?_⟩
      · intro it2 hit2 recs h2 r hr
        rcases List.mem_append.1 hit2 with h | h
        · exact i1 it2 h recs h2 r hr
        · simp only [List.mem_singleton] at h
          subst h
          rw [hnewitem recs h2] at hr
          exact absurd hr (List.not_mem_nil r)
      · intro it2 hit2 recs h2 hp r hr
        rcases List.mem_append.1 hit2 with h | h
        · exact i2 it2 h recs h2 hp r hr
        · simp only [List.mem_singleton] at h
          subst h
          rw [hnewitem recs h2] at hr
          exact absurd hr (List.not_mem_nil r)
      · intro r hr
        obtain ⟨it2, hit2, recs, h2, hrr⟩ := i4 r hr
        exact ⟨it2, List.mem_append_left _ hit2, recs, h2, hrr⟩
    · -- the buffered-state invariant shared by the no-flush and
      -- failed-flush branches
      have hbuf : ∀ s2 : MainState, s2.roms = s.roms →
          s2.buffer = s.buffer ++ data → s2.processed = s.processed →
          MainInv processed0 (consumed ++ [(nm, ParseOutcome.ok data)]) s2 := by
        intro s2 hroms hbuffer hproc
        refine ⟨?_, ?_, ?_, ?_⟩
        · intro it2 hit2 recs h2 r hr
          rw [hroms, hbuffer]
          rcases List.mem_append.1 hit2 with h | h
          · exact (i1 it2 h recs h2 r hr).imp id (List.mem_append_left data)
          · simp only [List.mem_singleton] at h
            subst h
            rw [hnewitem recs h2] at hr
            exact Or.inr (List.mem_append_right _ hr)
        · intro it2 hit2 recs h2 hp r hr
          rw [hroms]
          rw [hproc] at hp
          rcases List.mem_append.1 hit2 with h | h
          · exact i2 it2 h recs h2 hp r hr
          · simp only [List.mem_singleton] at h
            subst h
            rcases i3 _ hp with hc | hc
            · exact absurd hc hfresh
            · exact absurd hc hnew
        · intro f hf
          rw [hproc] at hf
          exact w3 s i3 f hf
        · intro r hr
          rw [hbuffer] at hr
          rcases List.mem_append.1 hr with h | h
          · obtain ⟨it2, hit2, recs, h2, hrr⟩ := i4 r h
            exact ⟨it2, List.mem_append_left _ hit2, recs, h2, hrr⟩
          · exact ⟨(nm, ParseOutcome.ok data),
              List.mem_append_right _ (List.mem_singleton.2 rfl),
              data, rfl, h⟩
      have hs1ne : (s.buffer ++ data) ≠ [] :=
        fun hc => hd (List.append_eq_nil.mp hc).2
      show MainInv processed0 (consumed ++ [(nm, ParseOutcome.ok data)])
        (main_step ins b s (nm, ParseOutcome.ok data))
      rw [main_step]
      simp only [isEmpty_false_of_ne_nil hd, Bool.false_eq_true, if_false]
      by_cases ht : b ≤ ({ s with buffer := s.buffer ++ data } : MainState).buffer.length
      · rw [if_pos ht]
        by_cases hi : ins ({ s with buffer := s.buffer ++ data} : MainState).buffer
        · rw [if_pos hi]
          rw [flush_buffer_true_of_ne_nil _ hs1ne]
          -- flushed state: everything buffered goes to roms, names committed
          refine ⟨?_, ?_, ?_, ?_⟩
          · intro it2 hit2 recs h2 r hr
            left
            rcases List.mem_append.1 hit2 with h | h
            · rcases i1 it2 h recs h2 r hr with hc | hc
              · exact List.mem_append_left _ hc
              · exact List.mem_append_right _ (List.mem_append_left _ hc)
            · simp only [List.mem_singleton] at h
              subst h
              rw [hnewitem recs h2] at hr
              exact List.mem_append_right _ (List.mem_append_right _ hr)
          · intro it2 hit2 recs h2 _ r hr
            rcases List.mem_append.1 hit2 with h | h
            · rcases i1 it2 h recs h2 r hr with hc | hc
              · exact List.mem_append_left _ hc
              · exact List.mem_append_right _ (List.mem_append_left _ hc)
            · simp only [List.mem_singleton] at h
              subst h
              rw [hnewitem recs h2] at hr
              exact List.mem_append_right _ (List.mem_append_right _ hr)
          · intro f hf
            rcases mem_flush_processed hf with h | ⟨r, hr, hrf⟩
            · exact w3 s i3 f h
            · rcases List.mem_append.1 hr with h | h
              · obtain ⟨it2, hit2, recs, h2, hrr⟩ := i4 r h
                right
                rw [List.map_append]
                refine List.mem_append_left _ ?_
                rw [← hrf, hnameC it2 hit2 recs h2 r hrr]
                exact List.mem_map.2 ⟨it2, hit2, rfl⟩
              · right
                rw [List.map_append]
                refine List.mem_append_right _ ?_
                rw [← hrf, hnameI data rfl r h]
                simp
          · intro r hr
            exact absurd hr (List.not_mem_nil r)
        · rw [if_neg hi]
          exact hbuf _ rfl rfl rfl
      · rw [if_neg ht]
        exact hbuf _ rfl rfl rfl

/-- `main`'s loop preserves the invariant along any run. -/
theorem main_run_inv (ins : List Record → Bool) (b : Nat)
    (processed0 : List String) :
    ∀ (rest consumed : List (String × ParseOutcome)) (s : MainState),
      (∀ it ∈ consumed ++ rest, ∀ recs, it.2 = ParseOutcome.ok recs →
          ∀ r ∈ recs, r.dat_filename = it.1) →
      (∀ it ∈ consumed ++ rest, it.1 ∉ processed0) →
      ((consumed ++ rest).map Prod.fst).Nodup →
      MainInv processed0 consumed s →
      MainInv processed0 (consumed ++ rest) (main_run ins b rest s) := by
  intro rest
  induction rest with
  | nil =>
    intro consumed s _ _ _ hinv
    simpa [main_run] using hinv
  | cons it rest ih =>
    intro consumed s hname hfresh hnodup hinv
    have hstep := main_step_inv ins b processed0 consumed it s hinv
      (fun it2 h2 => hname it2 (List.mem_append_left _ h2))
      (hname it (List.mem_append_right _ (List.mem_cons_self it rest)))
      (hfresh it (List.mem_append_right _ (List.mem_cons_self it rest)))
      (by
        have := hnodup
        rw [List.map_append, List.map_cons] at this
        intro hmem
        have hd2 := (List.nodup_append.1 this).2.2
        exact hd2 hmem (List.mem_cons_self _ _))
    have heq : consumed ++ it :: rest = (consumed ++ [it]) ++ rest := by
      simp
    rw [heq] at hname hfresh hnodup ⊢
    have := ih (consumed ++ [it]) (main_step ins b s it)
      hname hfresh hnodup hstep
    simpa [main_run] using this

/-- C1: `flush_buffer` issues the batched insert strictly before any
commit-marking, marks exactly after a successful insert (a failed insert
marks nothing and leaves the state untouched); consequently, along any run
of `main`'s loop on fresh, distinctly named files whose records carry their
file name, a committed file name implies all its records are stored. -/
theorem C1_flush_then_commit (ins : List Record → Bool) (batchSize : Nat)
    (roms0 : List Record) (processed0 : List String)
    (items : List (String × ParseOutcome))
    (hname : ∀ it ∈ items, ∀ recs, it.2 = ParseOutcome.ok recs →
        ∀ r ∈ recs, r.dat_filename = it.1)
    (hfresh : ∀ it ∈ items, it.1 ∉ processed0)
    (hnodup : (items.map Prod.fst).Nodup) :
    (∀ s : MainState, s.buffer ≠ [] →
        (flush_buffer true s).2 =
          DbEvent.insertRoms s.buffer ::
            (uniqueNames s.buffer).map DbEvent.markProcessed ∧
        (flush_buffer false s).2 = [DbEvent.insertRoms s.buffer] ∧
        (flush_buffer false s).1 = s) ∧
    (∀ p q, items = p ++ q →
        ∀ it ∈ p, ∀ recs, it.2 = ParseOutcome.ok recs →
          it.1 ∈ (main_run ins batchSize p (initMain roms0 processed0)).processed →
          ∀ r ∈ recs,
            r ∈ (main_run ins batchSize p (initMain roms0 processed0)).roms) := by
  constructor
  · intro s hs
    have he := isEmpty_false_of_ne_nil hs
    refine ⟨?_, ?_, ?_⟩ <;> simp [flush_buffer, he]
  · intro p q hpq it hit recs h2 hp r hr
    have hname2 : ∀ it2 ∈ ([] : List (String × ParseOutcome)) ++ p,
        ∀ recs2, it2.2 = ParseOutcome.ok recs2 →
        ∀ r2 ∈ recs2, r2.dat_filename = it2.1 := by
      intro it2 h3
      exact hname it2 (hpq ▸ List.mem_append_left q (by simpa using h3))
    have hfresh2 : ∀ it2 ∈ ([] : List (String × ParseOutcome)) ++ p,
        it2.1 ∉ processed0 := by
      intro it2 h3
      exact hfresh it2 (hpq ▸ List.mem_append_left q (by simpa using h3))
    have hnodup2 : ((([] : List (String × ParseOutcome)) ++ p).map
        Prod.fst).Nodup := by
      rw [List.nil_append]
      have := hnodup
      rw [hpq, List.map_append] at this
      exact this.of_append_left
    have hbase : MainInv processed0 [] (initMain roms0 processed0) := by
      refine ⟨?_, ?_, ?_, ?_⟩
      · intro it2 hit2; exact absurd hit2 (List.not_mem_nil it2)
      · intro it2 hit2; exact absurd hit2 (List.not_mem_nil it2)
      · intro f hf; exact Or.inl hf
      · intro r2 hr2; exact absurd hr2 (List.not_mem_nil r2)
    have hinv := main_run_inv ins batchSize processed0 p []
      (initMain roms0 processed0) hname2 hfresh2 hnodup2 hbase
    rw [List.nil_append] at hinv
    exact hinv.2.1 it hit recs h2 hp r hr

/-- Witness for C1: one file, one record, batch size 1 — after its flush
the file is committed and its record is stored. -/
theorem C1_flush_then_commit_witness :
    (∀ it ∈ demoItems, it.1 ∉ ([] : List String)) ∧
    ((demoItems.map Prod.fst).Nodup) ∧
    "a.dat" ∈ (main_run (fun _ => true) 1 demoItems (initMain [] [])).processed ∧
    demoRec1 ∈ (main_run (fun _ => true) 1 demoItems (initMain [] [])).roms :=
  ⟨by decide, by decide, by decide,
   (C1_flush_then_commit (fun _ => true) 1 [] [] demoItems
     (by
       intro it hit recs heq r hr
       simp only [demoItems, List.mem_singleton] at hit
       subst hit
       cases heq
       simp only [List.mem_singleton] at hr
       subst hr
       rfl)
     (by decide) (by decide)).2 demoItems [] (by simp)
     ("a.dat", ParseOutcome.ok [demoRec1]) (by decide) [demoRec1] rfl
     (by decide) demoRec1 (by decide)⟩

end TurboTosec
